import Mathlib

/-!
Verification of the tile-estimation pipeline in `src/main.py` (the "Run
Tiling" code path, lines 47-132).  The Python source is shallowly embedded:
Python floats are modelled as exact rationals, Python ints as `Int`/`Nat`,
and the external shapely geometry library is modelled as an explicit
geometry-kernel parameter, instantiated with exact rectangle geometry for
the concrete inputs used in the theorems.
-/

/-- A vertex, as the pair of coordinates read by the input form
(`vertices.append((x, y))`, main.py line 37). -/
abbrev Point := ℚ × ℚ

/-- An axis-aligned box, as produced by shapely's `box(minx, miny, maxx, maxy)`
(main.py lines 79 and 118). -/
structure Rect where
  minx : ℚ
  miny : ℚ
  maxx : ℚ
  maxy : ℚ
deriving DecidableEq, Repr

/-- A grid cell as built at main.py lines 68-70: real-space origin
`(x0, y0)` together with its grid indices `(i, j)`. -/
structure Cell where
  x0 : ℚ
  y0 : ℚ
  i : ℕ
  j : ℕ
deriving DecidableEq, Repr

/-- The three classification states assigned at main.py lines 80-85. -/
inductive TileStatus
  | fullyInside
  | partiallyInside
  | outside
deriving DecidableEq, Repr

/-- The geometric primitives of the external shapely library, as used by
main.py: `Polygon.is_valid` (line 73), `Polygon.covers` (line 80),
`Polygon.intersects` (line 82) and `Polygon.intersection(t).area`
(line 122).  The pipeline is parameterised over them; a concrete
instantiation for rectangle polygons is `rectKernel` below. -/
structure GeomKernel where
  isValid : List Point → Bool
  covers : List Point → Rect → Bool
  intersects : List Point → Rect → Bool
  overlapArea : List Point → Rect → ℚ

/-- Running state of the counting loop, main.py lines 113-115:
`full_tile_count`, `partial_rollup_count`, `partial_fraction_pool`. -/
structure AccState where
  full : ℕ
  rollup : ℕ
  pool : ℚ
deriving DecidableEq, Repr

/-- One iteration of the counting loop, main.py lines 117-130, applied to a
classified cell together with its overlap fraction.  The source computes the
fraction (lines 122-123) only inside the `partially_inside` branch; the
computation is pure, so hoisting it into the entry is observationally equal.
Note the source first executes `partial_fraction_pool += fraction` (line 127)
and then tests `partial_fraction_pool + fraction >= 1` (line 128) on the
already-updated pool. -/
def accStep (st : AccState) (e : TileStatus × ℚ) : AccState :=
  match e.1 with
  | .fullyInside => { st with full := st.full + 1 }
  | .partiallyInside =>
      if 11 / 20 ≤ e.2 then { st with full := st.full + 1 }
      else if e.2 ≠ 0 then
        let pool1 := st.pool + e.2
        if 1 ≤ pool1 + e.2 then { st with rollup := st.rollup + 1, pool := 0 }
        else { st with pool := pool1 }
      else st
  | .outside => st

/-- The whole counting loop, main.py lines 113-130, from the initial zero
state. -/
def runAccounting (l : List (TileStatus × ℚ)) : AccState :=
  l.foldl accStep ⟨0, 0, 0⟩

/-- The final total, main.py line 132:
`full_tile_count + partial_rollup_count + ceil(partial_fraction_pool)`. -/
def totalOf (st : AccState) : ℤ :=
  (st.full : ℤ) + st.rollup + ⌈st.pool⌉

/-- Python's `min` over a list, as applied to the nonempty coordinate lists
at main.py lines 57-60 (the caller guarantees nonemptiness; the `[]` case is
arbitrary). -/
def listMin : List ℚ → ℚ
  | [] => 0
  | x :: xs => xs.foldl min x

/-- Python's `max` over a list, see `listMin`. -/
def listMax : List ℚ → ℚ
  | [] => 0
  | x :: xs => xs.foldl max x

/-- Snapping of the lower bounding-box edge at main.py lines 57/59:
`floor(v / s) * s`.  Python's `floor` of a float returns an int, so the
result is an integer. -/
def snapLo (v : ℚ) (s : ℕ) : ℤ := ⌊v / s⌋ * s

/-- Snapping of the upper bounding-box edge at main.py lines 58/60:
`ceil(v / s) * s`. -/
def snapHi (v : ℚ) (s : ℕ) : ℤ := ⌈v / s⌉ * s

/-- Cell count along one axis, main.py lines 62-63:
`(x_max - x_min) // tile_w` on Python ints (floor division, matching
`Int` division on the nonnegative, exactly divisible operands produced by
the snapping step). -/
def nCells (lo hi : ℚ) (s : ℕ) : ℤ := (snapHi hi s - snapLo lo s) / (s : ℤ)

/-- The cell appended for indices `(i, j)` at main.py lines 68-70:
origin `(x_min + i * tile_w, y_min + j * tile_h)`. -/
def mkCell (xmin ymin : ℤ) (w h : ℕ) (i j : ℕ) : Cell :=
  ⟨(xmin : ℚ) + i * w, (ymin : ℚ) + j * h, i, j⟩

/-- The `grid_cells` nested loop at main.py lines 65-70:
`for i in range(n_cols): for j in range(n_rows): ... append(...)`. -/
def gridCells (xmin ymin : ℤ) (w h : ℕ) (nc nr : ℕ) : List Cell :=
  (List.range nc).flatMap fun i => (List.range nr).map fun j => mkCell xmin ymin w h i j

/-- The candidate cells built by main.py lines 54-70 from the vertex list
and the tile dimensions. -/
def builtCells (vs : List Point) (w h : ℕ) : List Cell :=
  let xs := vs.map Prod.fst
  let ys := vs.map Prod.snd
  gridCells (snapLo (listMin xs) w) (snapLo (listMin ys) h) w h
    (nCells (listMin xs) (listMax xs) w).toNat
    (nCells (listMin ys) (listMax ys) h).toNat

/-- The rectangle `box(x0, y0, x0 + tile_w, y0 + tile_h)` built for a cell at
main.py lines 79 and 118. -/
def cellBox (c : Cell) (w h : ℕ) : Rect :=
  ⟨c.x0, c.y0, c.x0 + w, c.y0 + h⟩

/-- The per-cell classification of main.py lines 80-85: `covers` first, then
`intersects`, else outside. -/
def classifyCell (K : GeomKernel) (vs : List Point) (w h : ℕ) (c : Cell) : TileStatus :=
  if K.covers vs (cellBox c w h) then .fullyInside
  else if K.intersects vs (cellBox c w h) then .partiallyInside
  else .outside

/-- The classification loop of main.py lines 77-86, producing
`((i, j), status)` entries in cell order. -/
def classify (K : GeomKernel) (vs : List Point) (w h : ℕ) (cells : List Cell) :
    List ((ℕ × ℕ) × TileStatus) :=
  cells.map fun c => ((c.i, c.j), classifyCell K vs w h c)

/-- The sequence the counting loop of main.py line 117 folds over:
`zip(grid_cells, [s for (_, s) in classified_tiles])`, with each element
carrying the status and the overlap fraction
`poly.intersection(t).area / tile_area` of main.py lines 122-123. -/
def tilingEntries (K : GeomKernel) (vs : List Point) (w h : ℕ) (cells : List Cell) :
    List (TileStatus × ℚ) :=
  (cells.zip ((classify K vs w h cells).map Prod.snd)).map
    fun ce => (ce.2, K.overlapArea vs (cellBox ce.1 w h) / ((w : ℚ) * h))

/-- The two failure sites of the run: the vertex-count guard at main.py
lines 49-51 and the `is_valid` guard at lines 73-75. -/
inductive RunError
  | tooFewVertices
  | invalidPolygon
deriving DecidableEq, Repr

/-- The four displayed count values of main.py lines 134-138. -/
structure CoverageResult where
  full : ℕ
  rollup : ℕ
  pool : ℚ
  total : ℤ
deriving DecidableEq, Repr

/-- Outcome of one run: either one of the two error stops, or the counts. -/
inductive RunResult
  | failure (e : RunError)
  | success (r : CoverageResult)
deriving DecidableEq, Repr

/-- Observable trace of a run: the candidate cells that were constructed
before the run ended, and its result.  Used to settle where in the control
flow each failure occurs. -/
structure RunTrace where
  cellsBuilt : List Cell
  result : RunResult
deriving DecidableEq, Repr

/-- The full "Run Tiling" control path of main.py lines 47-132, in source
order: the vertex-count guard (lines 49-51) runs before grid construction
(lines 54-70), which runs before the polygon validity guard (lines 72-75),
which runs before classification (lines 77-86) and counting (lines 112-132). -/
def runTiling (K : GeomKernel) (vs : List Point) (w h : ℕ) : RunTrace :=
  if vs.length < 3 then ⟨[], .failure .tooFewVertices⟩
  else
    let cells := builtCells vs w h
    if K.isValid vs = false then ⟨cells, .failure .invalidPolygon⟩
    else
      let st := runAccounting (tilingEntries K vs w h cells)
      ⟨cells, .success ⟨st.full, st.rollup, st.pool, totalOf st⟩⟩

/-- Recognises a vertex list of the shape
`[(x0, y0), (x1, y0), (x1, y1), (x0, y1)]` with `x0 < x1`, `y0 < y1`, i.e. a
simple axis-aligned rectangle ring, and returns its box. -/
def asAxisRect : List Point → Option Rect
  | [(a, c), (b, c'), (b', d), (a', d')] =>
      if c' = c ∧ b' = b ∧ d' = d ∧ a' = a ∧ a < b ∧ c < d then some ⟨a, c, b, d⟩
      else none
  | _ => none

/-- Twice the signed (shoelace) area of the closed ring through the given
vertices. -/
def shoelaceDouble (vs : List Point) : ℚ :=
  (vs.zip (vs.drop 1 ++ vs.take 1)).foldl
    (fun acc pq => acc + (pq.1.1 * pq.2.2 - pq.2.1 * pq.1.2)) 0

/-- Containment of box `t` in box `p` as a closed region; this is shapely's
`covers` restricted to rectangles. -/
def rectCovers (p t : Rect) : Bool :=
  decide (p.minx ≤ t.minx ∧ t.maxx ≤ p.maxx ∧ p.miny ≤ t.miny ∧ t.maxy ≤ p.maxy)

/-- Nonempty closed intersection of two boxes (boundary touching counts);
this is shapely's `intersects` restricted to rectangles. -/
def rectIntersects (p t : Rect) : Bool :=
  decide (p.minx ≤ t.maxx ∧ t.minx ≤ p.maxx ∧ p.miny ≤ t.maxy ∧ t.miny ≤ p.maxy)

/-- Area of the intersection of two boxes; this is shapely's
`intersection(..).area` restricted to rectangles. -/
def rectOverlapArea (p t : Rect) : ℚ :=
  max 0 (min p.maxx t.maxx - max p.minx t.minx) * max 0 (min p.maxy t.maxy - max p.miny t.miny)

/-- Modelled from the shapely library (an external dependency, not part of
this repository): exact geometry for the polygon inputs the theorems use.
On an axis-aligned rectangle ring the four primitives are the standard
closed-region box formulas, which agree with shapely's `is_valid`, `covers`,
`intersects` and `intersection(..).area`.  On any other ring, `is_valid` is
modelled as "twice the signed shoelace area is nonzero"; this agrees with
shapely on the zero-area self-intersecting rings used below (shapely reports
those as invalid), and the remaining three primitives are never applied to
non-rectangle rings in this development. -/
def rectKernel : GeomKernel where
  isValid vs :=
    match asAxisRect vs with
    | some _ => true
    | none => decide (shoelaceDouble vs ≠ 0)
  covers vs t :=
    match asAxisRect vs with
    | some p => rectCovers p t
    | none => false
  intersects vs t :=
    match asAxisRect vs with
    | some p => rectIntersects p t
    | none => false
  overlapArea vs t :=
    match asAxisRect vs with
    | some p => rectOverlapArea p t
    | none => 0

/-- Entries on which the counting loop increments `full_tile_count`
(main.py lines 119-120 and 124-125): fully inside, or partially inside with
fraction at least 0.55. -/
def promotesFull (e : TileStatus × ℚ) : Bool :=
  e.1 == TileStatus.fullyInside || (e.1 == TileStatus.partiallyInside && decide (11/20 ≤ e.2))

/-- Claim C1 as stated: for a partial fraction strictly between 0 and 0.55,
the rollup fires exactly when the pool before the addition plus the fraction
reaches 1. -/
def c1Claim : Prop :=
  ∀ (st : AccState) (f : ℚ), 0 < f → f < 11/20 →
    accStep st (.partiallyInside, f) =
      if 1 ≤ st.pool + f then ⟨st.full, st.rollup + 1, 0⟩
      else ⟨st.full, st.rollup, st.pool + f⟩

/-- Claim C2 as stated: all three counts of the accounting pass are invariant
under permutation of the classified-cell sequence. -/
def c2Claim : Prop :=
  ∀ l l' : List (TileStatus × ℚ), l.Perm l' →
    (runAccounting l).full = (runAccounting l').full ∧
    (runAccounting l).rollup = (runAccounting l').rollup ∧
    totalOf (runAccounting l) = totalOf (runAccounting l')

/-- Claim C3 as stated: on any invalid polygon input (too few vertices or a
geometrically invalid ring) the run aborts before any candidate cell is
built. -/
def c3Claim : Prop :=
  ∀ (K : GeomKernel) (vs : List Point) (w h : ℕ),
    (vs.length < 3 ∨ K.isValid vs = false) → (runTiling K vs w h).cellsBuilt = []

/-- Claim C4 as stated: for a fixed bounding box, enlarging either tile
dimension never increases the candidate cell count `n_cols * n_rows`. -/
def c4Claim : Prop :=
  ∀ (xlo xhi ylo yhi : ℚ) (w h w' h' : ℕ), 0 < w → 0 < h → w ≤ w' → h ≤ h' →
    nCells xlo xhi w' * nCells ylo yhi h' ≤ nCells xlo xhi w * nCells ylo yhi h

/-- Claim C5 as stated: any axis-aligned rectangle polygon of exactly one
tile yields counts (1, 0, 0, 1) from the full pipeline. -/
def c5Claim : Prop :=
  ∀ (x0 y0 : ℚ) (w h : ℕ), 0 < w → 0 < h →
    (runTiling rectKernel [(x0, y0), (x0 + w, y0), (x0 + w, y0 + h), (x0, y0 + h)] w h).result
      = .success ⟨1, 0, 0, 1⟩

/-- Claim C6 as stated: a polygon whose bounding box has zero width (all x
equal) or zero height (all y equal) produces an empty candidate cell set. -/
def c6Claim : Prop :=
  ∀ (vs : List Point) (w h : ℕ) (c : ℚ), 3 ≤ vs.length →
    ((∀ p ∈ vs, p.1 = c) ∨ (∀ p ∈ vs, p.2 = c)) → builtCells vs w h = []

/-! ## Accounting-pass lemmas -/

/-- The counting loop never touches `full_tile_count` except through the two
increment sites singled out by `promotesFull`. -/
theorem accStep_full (st : AccState) (e : TileStatus × ℚ) :
    (accStep st e).full = st.full + (if promotesFull e then 1 else 0) := by
  obtain ⟨s, f⟩ := e
  cases s with
  | fullyInside => simp [accStep, promotesFull]
  | outside => simp [accStep, promotesFull]
  | partiallyInside =>
      by_cases h : (11 : ℚ)/20 ≤ f
      · norm_num [accStep, promotesFull, h]
      · by_cases hz : f = 0
        · subst hz
          norm_num [accStep, promotesFull]
          decide
        · norm_num [accStep, promotesFull, h, hz]
          split_ifs <;> simp_all

/-- Fold form of `accStep_full`. -/
theorem foldl_accStep_full (l : List (TileStatus × ℚ)) :
    ∀ st : AccState, (l.foldl accStep st).full = st.full + l.countP promotesFull := by
  induction l with
  | nil => intro st; simp
  | cons e t ih =>
      intro st
      simp only [List.foldl_cons, List.countP_cons, ih, accStep_full]
      by_cases hp : promotesFull e <;> simp [hp] <;> omega

/-- One accounting step keeps the fractional pool inside `[0, 1)` when the
incoming fraction is in `[0, 1]`. -/
theorem accStep_pool_bounds (st : AccState) (e : TileStatus × ℚ)
    (hst : 0 ≤ st.pool ∧ st.pool < 1)
    (he : e.1 = .partiallyInside → 0 ≤ e.2 ∧ e.2 ≤ 1) :
    0 ≤ (accStep st e).pool ∧ (accStep st e).pool < 1 := by
  obtain ⟨s, f⟩ := e
  cases s with
  | fullyInside => simpa [accStep] using hst
  | outside => simpa [accStep] using hst
  | partiallyInside =>
      obtain ⟨hf0, _⟩ := he rfl
      simp only [accStep]
      split_ifs with h1 h2 h3
      · exact hst
      · exact ⟨le_refl 0, one_pos⟩
      · have hfpos : 0 < f := lt_of_le_of_ne hf0 (Ne.symm h2)
        have hub : st.pool + f + f < 1 := by simpa using not_le.mp h3
        constructor
        · simpa using add_nonneg hst.1 hf0
        · simp only []
          linarith
      · exact hst

/-- Fold form of `accStep_pool_bounds`. -/
theorem foldl_accStep_pool_bounds (l : List (TileStatus × ℚ)) :
    ∀ st : AccState,
      (∀ e ∈ l, e.1 = .partiallyInside → 0 ≤ e.2 ∧ e.2 ≤ 1) →
      0 ≤ st.pool ∧ st.pool < 1 →
      0 ≤ (l.foldl accStep st).pool ∧ (l.foldl accStep st).pool < 1 := by
  induction l with
  | nil => intro st _ hst; simpa using hst
  | cons e t ih =>
      intro st hb hst
      simp only [List.foldl_cons]
      exact ih _ (fun x hx => hb x (List.mem_cons_of_mem _ hx))
        (accStep_pool_bounds st e hst (hb e (List.mem_cons_self _ _)))

/-! ## Claim C1: the rollup trigger in the pool branch -/

/-- C1 is false of the code: with an empty pool and fraction 1/2 the source
(main.py lines 126-130) adds the fraction to the pool and then tests
`pool + fraction >= 1` on the updated pool, so it rolls up even though
pool_before + fraction = 1/2 < 1. -/
theorem c1_counterexample : ¬ c1Claim := by
  intro hcl
  have h := hcl ⟨0, 0, 0⟩ (1/2) (by norm_num) (by norm_num)
  norm_num [accStep] at h

/-- C1 amended: for a fraction strictly between 0 and 0.55 the fraction is
added to the pool, and the rollup fires (with the pool reset to 0) exactly
when the pool before the addition plus twice the fraction reaches 1 — the
code tests `pool + fraction >= 1` only after already adding the fraction to
the pool; otherwise rollup is unchanged and the pool keeps the accumulated
value. -/
theorem c1_amended (st : AccState) (f : ℚ) (h0 : 0 < f) (h55 : f < 11/20) :
    accStep st (.partiallyInside, f) =
      if 1 ≤ st.pool + f + f then ⟨st.full, st.rollup + 1, 0⟩
      else ⟨st.full, st.rollup, st.pool + f⟩ := by
  have hne : f ≠ 0 := ne_of_gt h0
  simp only [accStep]
  rw [if_neg (not_le.mpr h55), if_pos hne]

/-- Witness for `c1_amended` at pool 0, fraction 1/2. -/
theorem c1_amended_witness :
    accStep ⟨0, 0, 0⟩ (.partiallyInside, 1/2) = ⟨0, 1, 0⟩ := by
  have h := c1_amended ⟨0, 0, 0⟩ (1/2) (by norm_num) (by norm_num)
  rw [h]
  norm_num

/-! ## Claim C2: permutation invariance of the counts -/

/-- C2 is false of the code: the pool rollover depends on the order of the
partial fractions.  With fractions 1/2 then 1/5 the run rolls up on the
first cell and ends with pool 1/5 (total 2); in the opposite order it ends
with pool 0 (total 1). -/
theorem c2_counterexample : ¬ c2Claim := by
  intro hcl
  have h := (hcl [(.partiallyInside, 1/2), (.partiallyInside, 1/5)]
      [(.partiallyInside, 1/5), (.partiallyInside, 1/2)]
      (List.Perm.swap _ _ _)).2.2
  have f3 : ⌈(1/5 : ℚ)⌉ = 1 := by rw [Int.ceil_eq_iff]; norm_num
  norm_num [runAccounting, accStep, totalOf, f3] at h

/-- C2 amended: `full_tile_count` is invariant under any permutation of the
classified cells (it counts exactly the `promotesFull` entries), but
`rollup_count`, the residual pool and hence `total_tiles` are order
dependent. -/
theorem c2_amended (l l' : List (TileStatus × ℚ)) (hperm : l.Perm l') :
    (runAccounting l).full = (runAccounting l').full := by
  unfold runAccounting
  rw [foldl_accStep_full, foldl_accStep_full, hperm.countP_eq]

/-- Witness for `c2_amended` on a two-element swap. -/
theorem c2_amended_witness :
    (runAccounting [(.partiallyInside, 1/2), (.fullyInside, 0)]).full
      = (runAccounting [(.fullyInside, 0), (.partiallyInside, 1/2)]).full :=
  c2_amended _ _ (List.Perm.swap _ _ _)

/-! ## Claim C8: the 0.55 threshold boundary -/

/-- C8 confirmed: a partially-inside cell with fraction exactly 0.55 is
promoted to a full tile (main.py lines 124-125) and the pool is untouched. -/
theorem c8_threshold (st : AccState) :
    accStep st (.partiallyInside, 11/20) = ⟨st.full + 1, st.rollup, st.pool⟩ := by
  simp [accStep]

/-! ## Claim C9: pool invariant and the total formula -/

/-- C9 confirmed: when every partially-inside fraction lies in `[0, 1]`, the
running pool stays in `[0, 1)` after every step (every prefix of the fold),
the final total is `full + rollup + ceil(pool)` as at main.py line 132, and
that ceiling is 0 or 1. -/
theorem c9_invariant (l : List (TileStatus × ℚ))
    (hb : ∀ e ∈ l, e.1 = .partiallyInside → 0 ≤ e.2 ∧ e.2 ≤ 1) :
    (∀ p q : List (TileStatus × ℚ), l = p ++ q →
        0 ≤ (runAccounting p).pool ∧ (runAccounting p).pool < 1) ∧
    totalOf (runAccounting l)
      = ((runAccounting l).full : ℤ) + (runAccounting l).rollup + ⌈(runAccounting l).pool⌉ ∧
    (⌈(runAccounting l).pool⌉ = 0 ∨ ⌈(runAccounting l).pool⌉ = 1) := by
  have hpref : ∀ p q : List (TileStatus × ℚ), l = p ++ q →
      0 ≤ (runAccounting p).pool ∧ (runAccounting p).pool < 1 := by
    intro p q hpq
    refine foldl_accStep_pool_bounds p _ ?_ (by norm_num)
    intro e he
    exact hb e (hpq ▸ List.mem_append_left q he)
  refine ⟨hpref, rfl, ?_⟩
  have hl := hpref l [] (by simp)
  have h1 : ⌈(runAccounting l).pool⌉ ≤ 1 := by
    rw [Int.ceil_le]
    push_cast
    linarith [hl.2]
  have h0 : 0 ≤ ⌈(runAccounting l).pool⌉ := Int.ceil_nonneg hl.1
  omega

/-- Witness for `c9_invariant` on a one-entry list with fraction 1/3. -/
theorem c9_invariant_witness :
    0 ≤ (runAccounting [(.partiallyInside, 1/3)]).pool
      ∧ (runAccounting [(.partiallyInside, 1/3)]).pool < 1 :=
  (c9_invariant [(.partiallyInside, 1/3)] (by norm_num)).1
    [(.partiallyInside, 1/3)] [] (by simp)

/-! ## Grid snapping lemmas -/

/-- For a positive tile size the axis cell count of main.py lines 57-63 is
the ceiling of the upper edge minus the floor of the lower edge, in tile
units. -/
theorem nCells_eq (lo hi : ℚ) (s : ℕ) (hs : 0 < s) :
    nCells lo hi s = ⌈hi / s⌉ - ⌊lo / s⌋ := by
  have hsz : (s : ℤ) ≠ 0 := by exact_mod_cast hs.ne'
  unfold nCells snapHi snapLo
  rw [← sub_mul, Int.mul_ediv_cancel _ hsz]

/-- The snapped extent is never negative: the axis cell count is nonnegative
whenever the bounding box is ordered. -/
theorem nCells_nonneg (lo hi : ℚ) (s : ℕ) (hs : 0 < s) (hlh : lo ≤ hi) :
    0 ≤ nCells lo hi s := by
  rw [nCells_eq lo hi s hs]
  have hsq : (0 : ℚ) < s := by exact_mod_cast hs
  have h1 : (⌊lo / s⌋ : ℚ) ≤ lo / s := Int.floor_le _
  have h2 : (hi : ℚ) / s ≤ (⌈hi / s⌉ : ℚ) := Int.le_ceil _
  have h3 : lo / s ≤ hi / s := (div_le_div_right hsq).mpr hlh
  have : (⌊lo / s⌋ : ℚ) ≤ (⌈hi / s⌉ : ℚ) := by linarith
  exact sub_nonneg.mpr (by exact_mod_cast this)

/-- A nondegenerate axis yields at least one cell. -/
theorem nCells_pos (lo hi : ℚ) (s : ℕ) (hs : 0 < s) (hlh : lo < hi) :
    0 < nCells lo hi s := by
  rw [nCells_eq lo hi s hs]
  have hsq : (0 : ℚ) < s := by exact_mod_cast hs
  have h1 : (⌊lo / s⌋ : ℚ) ≤ lo / s := Int.floor_le _
  have h2 : (hi : ℚ) / s ≤ (⌈hi / s⌉ : ℚ) := Int.le_ceil _
  have h3 : lo / s < hi / s := (div_lt_div_right hsq).mpr hlh
  have : (⌊lo / s⌋ : ℚ) < (⌈hi / s⌉ : ℚ) := by linarith
  have : ⌊lo / s⌋ < ⌈hi / s⌉ := by exact_mod_cast this
  omega

/-- Key integer inequality behind the amended monotonicity claim: dividing a
strictly ordered pair of integers by a positive integer `k` (floor below,
ceiling above) cannot widen the gap. -/
theorem ceil_sub_floor_div_le (A B : ℤ) (k : ℕ) (hk : 0 < k) (hAB : A < B) :
    ⌈(B : ℚ) / k⌉ - ⌊(A : ℚ) / k⌋ ≤ B - A := by
  have hkq : (0 : ℚ) < k := by exact_mod_cast hk
  have h1 : ⌈(B : ℚ) / k⌉ ≤ ⌊((B - 1 : ℤ) : ℚ) / k⌋ + 1 := by
    have hc : (⌈(B : ℚ) / k⌉ - 1 : ℤ) ≤ ⌊((B - 1 : ℤ) : ℚ) / k⌋ := by
      rw [Int.le_floor]
      rw [le_div_iff hkq]
      have hlt : ((⌈(B : ℚ) / k⌉ : ℚ) - 1) < (B : ℚ) / k := by
        have := Int.ceil_lt_add_one ((B : ℚ) / k)
        linarith
      have hstrict : ((⌈(B : ℚ) / k⌉ : ℚ) - 1) * k < B := by
        calc ((⌈(B : ℚ) / k⌉ : ℚ) - 1) * k < ((B : ℚ) / k) * k :=
              mul_lt_mul_of_pos_right hlt hkq
          _ = B := div_mul_cancel₀ _ hkq.ne'
      have hZ : (⌈(B : ℚ) / k⌉ - 1) * (k : ℤ) < B := by exact_mod_cast hstrict
      have hZ' : (⌈(B : ℚ) / k⌉ - 1) * (k : ℤ) ≤ B - 1 := by omega
      exact_mod_cast hZ'
    omega
  have h2 : ⌊((B - 1 : ℤ) : ℚ) / k⌋ ≤ ⌊(A : ℚ) / k⌋ + (B - 1 - A) := by
    have hnn : (0 : ℚ) ≤ ((B - 1 - A : ℤ) : ℚ) := by
      have : (0 : ℤ) ≤ B - 1 - A := by omega
      exact_mod_cast this
    have hk1 : (1 : ℚ) ≤ k := by exact_mod_cast hk
    have hd : ((B - 1 - A : ℤ) : ℚ) / k ≤ ((B - 1 - A : ℤ) : ℚ) := div_le_self hnn hk1
    have hsplit : ((B - 1 : ℤ) : ℚ) / k = (A : ℚ) / k + ((B - 1 - A : ℤ) : ℚ) / k := by
      push_cast
      ring
    have hle : ((B - 1 : ℤ) : ℚ) / k ≤ (A : ℚ) / k + ((B - 1 - A : ℤ) : ℚ) := by
      rw [hsplit]
      linarith
    calc ⌊((B - 1 : ℤ) : ℚ) / k⌋ ≤ ⌊(A : ℚ) / k + ((B - 1 - A : ℤ) : ℚ)⌋ :=
          Int.floor_le_floor hle
      _ = ⌊(A : ℚ) / k⌋ + (B - 1 - A) := Int.floor_add_int _ _
  omega

/-- Replacing the tile size by a positive integer multiple of it never
increases the axis cell count, provided the bounding box is nondegenerate
on that axis. -/
theorem nCells_anti_mul (lo hi : ℚ) (s k : ℕ) (hs : 0 < s) (hk : 0 < k) (hlh : lo < hi) :
    nCells lo hi (k * s) ≤ nCells lo hi s := by
  have hks : 0 < k * s := Nat.mul_pos hk hs
  rw [nCells_eq lo hi s hs, nCells_eq lo hi (k * s) hks]
  have hsq : (0 : ℚ) < s := by exact_mod_cast hs
  have hkq : (0 : ℚ) < k := by exact_mod_cast hk
  set A := ⌊lo / s⌋ with hA
  set B := ⌈hi / s⌉ with hB
  have hAB : A < B := by
    have h1 : (A : ℚ) ≤ lo / s := Int.floor_le _
    have h2 : hi / s ≤ (B : ℚ) := Int.le_ceil _
    have h3 : lo / s < hi / s := (div_lt_div_right hsq).mpr hlh
    have : (A : ℚ) < (B : ℚ) := by linarith
    exact_mod_cast this
  have hcast : ((k * s : ℕ) : ℚ) = (k : ℚ) * s := by push_cast; ring
  have hceil : ⌈hi / ((k * s : ℕ) : ℚ)⌉ ≤ ⌈(B : ℚ) / k⌉ := by
    apply Int.ceil_le_ceil
    rw [hcast, mul_comm (k : ℚ) (s : ℚ), ← div_div]
    exact (div_le_div_right hkq).mpr (Int.le_ceil _)
  have hfloor : ⌊(A : ℚ) / k⌋ ≤ ⌊lo / ((k * s : ℕ) : ℚ)⌋ := by
    apply Int.floor_le_floor
    rw [hcast, mul_comm (k : ℚ) (s : ℚ), ← div_div]
    exact (div_le_div_right hkq).mpr (Int.floor_le _)
  have hmain := ceil_sub_floor_div_le A B k hk hAB
  omega

/-! ## Claim C4: tile-size monotonicity of the candidate cell count -/

/-- C4 is false of the code: with bounding box x in [2.9, 3.1], y in [0, 1],
growing the tile width from 2 to 3 grows `n_cols` from 1 to 2 (the wider
grid straddles the multiple-of-3 boundary at 3), and with the degenerate
box x in [6, 6] growing the width from 1 to 4 grows `n_cols` from 0 to 1. -/
theorem c4_counterexample : ¬ c4Claim := by
  intro hcl
  have h := hcl (29/10) (31/10) 0 1 2 1 3 1 (by norm_num) (by norm_num)
    (by norm_num) (by norm_num)
  have f1 : ⌊(29/20 : ℚ)⌋ = 1 := by rw [Int.floor_eq_iff]; norm_num
  have f2 : ⌈(31/20 : ℚ)⌉ = 2 := by rw [Int.ceil_eq_iff]; norm_num
  have f3 : ⌊(29/30 : ℚ)⌋ = 0 := by rw [Int.floor_eq_iff]; norm_num
  have f4 : ⌈(31/30 : ℚ)⌉ = 2 := by rw [Int.ceil_eq_iff]; norm_num
  norm_num [nCells, snapLo, snapHi, f1, f2, f3, f4] at h

/-- C4 amended: for a fixed bounding box that is nondegenerate in both axes,
replacing tile_w and tile_h by positive integer multiples of themselves
never increases the candidate cell count `n_cols * n_rows`; for tile sizes
that are not multiples (or for a degenerate axis) the count can grow. -/
theorem c4_amended (xlo xhi ylo yhi : ℚ) (w h k k' : ℕ)
    (hw : 0 < w) (hh : 0 < h) (hk : 0 < k) (hk' : 0 < k')
    (hx : xlo < xhi) (hy : ylo < yhi) :
    nCells xlo xhi (k * w) * nCells ylo yhi (k' * h)
      ≤ nCells xlo xhi w * nCells ylo yhi h := by
  have h1 := nCells_anti_mul xlo xhi w k hw hk hx
  have h2 := nCells_anti_mul ylo yhi h k' hh hk' hy
  have p1 : 0 ≤ nCells xlo xhi (k * w) :=
    nCells_nonneg _ _ _ (Nat.mul_pos hk hw) hx.le
  have p2 : 0 ≤ nCells ylo yhi (k' * h) :=
    nCells_nonneg _ _ _ (Nat.mul_pos hk' hh) hy.le
  exact mul_le_mul h1 h2 p2 (le_trans p1 h1)

/-- Witness for `c4_amended`: doubling a unit tile on the unit box. -/
theorem c4_amended_witness :
    nCells 0 1 (2 * 1) * nCells 0 1 (2 * 1) ≤ nCells 0 1 1 * nCells 0 1 1 :=
  c4_amended 0 1 0 1 1 1 2 2 (by norm_num) (by norm_num) (by norm_num)
    (by norm_num) (by norm_num) (by norm_num)

/-! ## Claim C6: degenerate bounding boxes -/

/-- Folding `min` over a constant list returns the constant. -/
theorem foldl_min_const (c : ℚ) (l : List ℚ) (hall : ∀ x ∈ l, x = c) :
    l.foldl min c = c := by
  induction l with
  | nil => rfl
  | cons x xs ih =>
      have hx : x = c := hall x (List.mem_cons_self _ _)
      simp only [List.foldl_cons, hx, min_self]
      exact ih fun y hy => hall y (List.mem_cons_of_mem _ hy)

/-- Folding `max` over a constant list returns the constant. -/
theorem foldl_max_const (c : ℚ) (l : List ℚ) (hall : ∀ x ∈ l, x = c) :
    l.foldl max c = c := by
  induction l with
  | nil => rfl
  | cons x xs ih =>
      have hx : x = c := hall x (List.mem_cons_self _ _)
      simp only [List.foldl_cons, hx, max_self]
      exact ih fun y hy => hall y (List.mem_cons_of_mem _ hy)

/-- On a constant nonempty coordinate list, Python's `min` and `max` agree
with the constant. -/
theorem listMin_listMax_const (c : ℚ) (l : List ℚ) (hne : l ≠ [])
    (hall : ∀ x ∈ l, x = c) : listMin l = c ∧ listMax l = c := by
  match l, hne with
  | x :: xs, _ =>
      have hx : x = c := hall x (List.mem_cons_self _ _)
      have hxs : ∀ y ∈ xs, y = c := fun y hy => hall y (List.mem_cons_of_mem _ hy)
      subst hx
      exact ⟨foldl_min_const x xs hxs, foldl_max_const x xs hxs⟩

/-- When the common coordinate is an exact tile multiple, the degenerate
axis really does get zero cells. -/
theorem nCells_degenerate_aligned (m : ℤ) (s : ℕ) (hs : 0 < s) :
    nCells ((m * s : ℤ) : ℚ) ((m * s : ℤ) : ℚ) s = 0 := by
  have hsq : ((s : ℚ)) ≠ 0 := by exact_mod_cast hs.ne'
  have hdiv : ((m * s : ℤ) : ℚ) / s = (m : ℚ) := by
    push_cast
    rw [mul_div_assoc, div_self hsq, mul_one]
  unfold nCells snapHi snapLo
  rw [hdiv, Int.floor_intCast, Int.ceil_intCast, sub_self, Int.zero_ediv]

/-- A grid with zero columns has no cells at all. -/
theorem gridCells_zero_cols (xmin ymin : ℤ) (w h nr : ℕ) :
    gridCells xmin ymin w h 0 nr = [] := by
  simp [gridCells]

/-- A grid with zero rows has no cells at all. -/
theorem gridCells_zero_rows (xmin ymin : ℤ) (w h nc : ℕ) :
    gridCells xmin ymin w h nc 0 = [] := by
  simp [gridCells]

/-- C6 is false of the code: a degenerate polygon with every x equal to 100
and tile width 200 still gets one column (the snapped extent is [0, 200]
because 100 is not a multiple of 200), so the candidate cell set is not
empty. -/
theorem c6_counterexample : ¬ c6Claim := by
  intro hcl
  have h := hcl [(100, 0), (100, 200), (100, 100)] 200 200 100 (by norm_num)
    (Or.inl (by norm_num))
  have f1 : ⌊(1/2 : ℚ)⌋ = 0 := by rw [Int.floor_eq_iff]; norm_num
  have f2 : ⌈(1/2 : ℚ)⌉ = 1 := by rw [Int.ceil_eq_iff]; norm_num
  norm_num [builtCells, listMin, listMax, snapLo, snapHi, nCells, gridCells,
    mkCell, min_def, max_def, List.range_succ, f1, f2] at h

/-- C6 amended: a degenerate bounding box yields an empty candidate cell set
exactly when the shared coordinate is an integer multiple of the tile size
on that axis (then that axis gets zero cells); a shared coordinate strictly
inside a tile interval yields one cell on that axis instead. -/
theorem c6_amended (vs : List Point) (w h : ℕ) (m : ℤ)
    (hw : 0 < w) (hh : 0 < h) (hne : vs ≠ []) :
    ((∀ p ∈ vs, p.1 = ((m * w : ℤ) : ℚ)) → builtCells vs w h = []) ∧
    ((∀ p ∈ vs, p.2 = ((m * h : ℤ) : ℚ)) → builtCells vs w h = []) := by
  constructor
  · intro hall
    have hxs : ∀ x ∈ vs.map Prod.fst, x = ((m * w : ℤ) : ℚ) := by
      intro x hx
      obtain ⟨p, hp, rfl⟩ := List.mem_map.mp hx
      exact hall p hp
    have hnex : vs.map Prod.fst ≠ [] := by
      simpa using hne
    obtain ⟨hmin, hmax⟩ :=
      listMin_listMax_const ((m * w : ℤ) : ℚ) (vs.map Prod.fst) hnex hxs
    simp only [builtCells]
    rw [hmin, hmax, nCells_degenerate_aligned m w hw]
    exact gridCells_zero_cols _ _ _ _ _
  · intro hall
    have hys : ∀ y ∈ vs.map Prod.snd, y = ((m * h : ℤ) : ℚ) := by
      intro y hy
      obtain ⟨p, hp, rfl⟩ := List.mem_map.mp hy
      exact hall p hp
    have hney : vs.map Prod.snd ≠ [] := by
      simpa using hne
    obtain ⟨hmin, hmax⟩ :=
      listMin_listMax_const ((m * h : ℤ) : ℚ) (vs.map Prod.snd) hney hys
    simp only [builtCells]
    rw [hmin, hmax, nCells_degenerate_aligned m h hh]
    exact gridCells_zero_rows _ _ _ _ _

/-- Witness for `c6_amended`: three collinear vertices on the y-axis with
unit tiles. -/
theorem c6_amended_witness : builtCells [(0, 0), (0, 1), (0, 2)] 1 1 = [] :=
  (c6_amended [(0, 0), (0, 1), (0, 2)] 1 1 0 (by norm_num) (by norm_num)
    (List.cons_ne_nil _ _)).1 (by norm_num)

/-! ## Claim C3: where invalid input aborts the run -/

/-- C3 is false of the code: on the self-intersecting zero-area bowtie ring
(0,0), (1,1), (1,0), (0,1) the run does abort with the invalid-polygon
failure, but only after the candidate grid cell has been built, because the
`is_valid` guard at main.py line 73 sits below the grid loop of lines
65-70. -/
theorem c3_counterexample : ¬ c3Claim := by
  intro hcl
  have hval : rectKernel.isValid [(0, 0), (1, 1), (1, 0), (0, 1)] = false := by
    norm_num [rectKernel, asAxisRect, shoelaceDouble]
  have h := hcl rectKernel [(0, 0), (1, 1), (1, 0), (0, 1)] 1 1 (Or.inr hval)
  have heval : runTiling rectKernel [(0, 0), (1, 1), (1, 0), (0, 1)] 1 1
      = ⟨[⟨0, 0, 0, 0⟩], .failure .invalidPolygon⟩ := by
    norm_num [runTiling, builtCells, listMin, listMax, snapLo, snapHi, nCells,
      gridCells, mkCell, rectKernel, asAxisRect, shoelaceDouble,
      min_def, max_def, List.range_succ]
  rw [heval] at h
  simp at h

/-- C3 amended: a polygon with fewer than 3 vertices aborts before grid
construction (no candidate cells are built), but a geometrically invalid
ring with at least 3 vertices aborts only after the candidate cells have
been built — still before classification and accounting, so no counts are
produced in either case. -/
theorem c3_amended (K : GeomKernel) (vs : List Point) (w h : ℕ) :
    (vs.length < 3 → runTiling K vs w h = ⟨[], .failure .tooFewVertices⟩) ∧
    (3 ≤ vs.length → K.isValid vs = false →
      runTiling K vs w h = ⟨builtCells vs w h, .failure .invalidPolygon⟩) := by
  constructor
  · intro hlt
    simp [runTiling, hlt]
  · intro hge hval
    have hnlt : ¬ vs.length < 3 := not_lt.mpr hge
    simp [runTiling, hnlt, hval]

/-- Witness for `c3_amended`: the two-vertex segment stops before the grid,
and the bowtie stops with its cell already built. -/
theorem c3_amended_witness :
    runTiling rectKernel [(0, 0), (1, 1)] 1 1 = ⟨[], .failure .tooFewVertices⟩ ∧
    runTiling rectKernel [(0, 0), (1, 1), (1, 0), (0, 1)] 1 1
      = ⟨builtCells [(0, 0), (1, 1), (1, 0), (0, 1)] 1 1, .failure .invalidPolygon⟩ := by
  constructor
  · exact (c3_amended rectKernel [(0, 0), (1, 1)] 1 1).1 (by norm_num)
  · exact (c3_amended rectKernel [(0, 0), (1, 1), (1, 0), (0, 1)] 1 1).2
      (by norm_num) (by norm_num [rectKernel, asAxisRect, shoelaceDouble])

/-! ## Claim C5: the one-tile rectangle polygon -/

/-- C5 is false of the code: the one-tile rectangle [50, 250] x [0, 200]
with 200 x 200 tiles is not aligned to the snapped grid, is split across two
candidate cells with overlap fractions 3/4 and 1/4, and the pipeline
returns full=1, rollup=0, pool=1/4, total=2. -/
theorem c5_counterexample : ¬ c5Claim := by
  intro hcl
  have h := hcl 50 0 200 200 (by norm_num) (by norm_num)
  have f1 : ⌊(1/4 : ℚ)⌋ = 0 := by rw [Int.floor_eq_iff]; norm_num
  have f2 : ⌈(5/4 : ℚ)⌉ = 2 := by rw [Int.ceil_eq_iff]; norm_num
  have t2 : (2 : ℤ).toNat = 2 := rfl
  have f3 : ⌈(1/4 : ℚ)⌉ = 1 := by rw [Int.ceil_eq_iff]; norm_num
  norm_num [runTiling, builtCells, listMin, listMax, snapLo, snapHi, nCells,
    gridCells, mkCell, rectKernel, asAxisRect, cellBox, classify, classifyCell,
    rectCovers, rectIntersects, rectOverlapArea, tilingEntries,
    runAccounting, accStep, totalOf,
    min_def, max_def, List.range_succ, t2, f1, f2, f3] at h

/-- Snapping an exact tile multiple downward returns it unchanged. -/
theorem snapLo_mul (m : ℤ) (s : ℕ) (hs : 0 < s) :
    snapLo ((m * s : ℤ) : ℚ) s = m * s := by
  have hsq : ((s : ℚ)) ≠ 0 := by exact_mod_cast hs.ne'
  have hdiv : ((m * s : ℤ) : ℚ) / s = (m : ℚ) := by
    push_cast
    rw [mul_div_assoc, div_self hsq, mul_one]
  unfold snapLo
  rw [hdiv, Int.floor_intCast]

/-- Snapping an exact tile multiple upward returns it unchanged. -/
theorem snapHi_mul (m : ℤ) (s : ℕ) (hs : 0 < s) :
    snapHi ((m * s : ℤ) : ℚ) s = m * s := by
  have hsq : ((s : ℚ)) ≠ 0 := by exact_mod_cast hs.ne'
  have hdiv : ((m * s : ℤ) : ℚ) / s = (m : ℚ) := by
    push_cast
    rw [mul_div_assoc, div_self hsq, mul_one]
  unfold snapHi
  rw [hdiv, Int.ceil_intCast]

/-- C5 amended: an axis-aligned rectangle polygon of exactly one tile whose
lower-left corner lies on the tile grid (an integer multiple of tile_w and
tile_h on each axis) yields full=1, rollup=0, pool=0, total=1 from the full
pipeline; an unaligned one-tile rectangle can straddle cells and produce a
larger total. -/
theorem c5_amended (i0 j0 : ℤ) (w h : ℕ) (hw : 0 < w) (hh : 0 < h) :
    (runTiling rectKernel
      [(((i0 * w : ℤ) : ℚ), ((j0 * h : ℤ) : ℚ)),
       (((i0 * w : ℤ) : ℚ) + w, ((j0 * h : ℤ) : ℚ)),
       (((i0 * w : ℤ) : ℚ) + w, ((j0 * h : ℤ) : ℚ) + h),
       (((i0 * w : ℤ) : ℚ), ((j0 * h : ℤ) : ℚ) + h)] w h).result
      = .success ⟨1, 0, 0, 1⟩ := by
  set a : ℚ := ((i0 * w : ℤ) : ℚ) with ha
  set c : ℚ := ((j0 * h : ℤ) : ℚ) with hc
  have hwq : (0 : ℚ) < w := by exact_mod_cast hw
  have hhq : (0 : ℚ) < h := by exact_mod_cast hh
  set vs : List Point := [(a, c), (a + w, c), (a + w, c + h), (a, c + h)] with hvs
  -- bounding box
  have m1 : min a (a + (w : ℚ)) = a := min_eq_left (by linarith)
  have m2 : max a (a + (w : ℚ)) = a + w := max_eq_right (by linarith)
  have m3 : max (a + (w : ℚ)) a = a + w := max_eq_left (by linarith)
  have m4 : min c (c + (h : ℚ)) = c := min_eq_left (by linarith)
  have m5 : max c (c + (h : ℚ)) = c + h := max_eq_right (by linarith)
  have hxmin : listMin (vs.map Prod.fst) = a := by
    simp only [hvs, List.map_cons, List.map_nil, listMin, List.foldl_cons,
      List.foldl_nil, m1, min_self]
  have hxmax : listMax (vs.map Prod.fst) = a + w := by
    simp only [hvs, List.map_cons, List.map_nil, listMax, List.foldl_cons,
      List.foldl_nil, m2, m3, max_self]
  have hymin : listMin (vs.map Prod.snd) = c := by
    simp only [hvs, List.map_cons, List.map_nil, listMin, List.foldl_cons,
      List.foldl_nil, m4, min_self]
  have hymax : listMax (vs.map Prod.snd) = c + h := by
    simp only [hvs, List.map_cons, List.map_nil, listMax, List.foldl_cons,
      List.foldl_nil, m5, max_self]
  -- snapping
  have hsx : snapLo a w = i0 * w := snapLo_mul i0 w hw
  have hsy : snapLo c h = j0 * h := snapLo_mul j0 h hh
  have hshx : snapHi (a + w) w = (i0 + 1) * w := by
    have : a + (w : ℚ) = (((i0 + 1) * w : ℤ) : ℚ) := by rw [ha]; push_cast; ring
    rw [this, snapHi_mul _ _ hw]
  have hshy : snapHi (c + h) h = (j0 + 1) * h := by
    have : c + (h : ℚ) = (((j0 + 1) * h : ℤ) : ℚ) := by rw [hc]; push_cast; ring
    rw [this, snapHi_mul _ _ hh]
  have hncx : nCells a (a + w) w = 1 := by
    unfold nCells
    rw [hsx, hshx]
    have hd : ((i0 + 1) * w - i0 * w : ℤ) = (w : ℤ) := by ring
    rw [hd, Int.ediv_self (by exact_mod_cast hw.ne')]
  have hncy : nCells c (c + h) h = 1 := by
    unfold nCells
    rw [hsy, hshy]
    have hd : ((j0 + 1) * h - j0 * h : ℤ) = (h : ℤ) := by ring
    rw [hd, Int.ediv_self (by exact_mod_cast hh.ne')]
  -- candidate cells
  have hcells : builtCells vs w h = [⟨a, c, 0, 0⟩] := by
    simp only [builtCells]
    rw [hxmin, hxmax, hymin, hymax, hsx, hsy, hncx, hncy]
    simp [gridCells, List.range_succ, mkCell, ha, hc]
  -- the ring is recognised as an axis rectangle
  have hrect : asAxisRect vs = some ⟨a, c, a + w, c + h⟩ := by
    have h1 : a < a + (w : ℚ) := by linarith
    have h2 : c < c + (h : ℚ) := by linarith
    simp [hvs, asAxisRect, h1, h2]
  have hval : rectKernel.isValid vs = true := by
    simp only [rectKernel, hrect]
  -- classification of the unique cell
  have hbox : cellBox ⟨a, c, 0, 0⟩ w h = ⟨a, c, a + w, c + h⟩ := by
    simp [cellBox]
  have hcov : rectKernel.covers vs (cellBox ⟨a, c, 0, 0⟩ w h) = true := by
    simp only [rectKernel, hrect, hbox, rectCovers]
    simp
  have hclass : classifyCell rectKernel vs w h ⟨a, c, 0, 0⟩ = .fullyInside := by
    simp only [classifyCell, hcov, if_true]
  -- assemble
  have hlen : ¬ vs.length < 3 := by simp [hvs]
  have hvalne : ¬ rectKernel.isValid vs = false := by simp [hval]
  simp only [runTiling, if_neg hlen, if_neg hvalne, hcells]
  simp only [tilingEntries, classify, List.map_cons, List.map_nil, hclass,
    List.zip_cons_cons, List.zip_nil_right, runAccounting, List.foldl_cons,
    List.foldl_nil, accStep]
  simp [totalOf]

/-- Witness for `c5_amended`: the tile-aligned unit rectangle at the origin
with 200 x 200 tiles. -/
theorem c5_amended_witness :
    (runTiling rectKernel [(0, 0), (200, 0), (200, 200), (0, 200)] 200 200).result
      = .success ⟨1, 0, 0, 1⟩ := by
  have h := c5_amended 0 0 200 200 (by norm_num) (by norm_num)
  norm_num at h
  exact h

/-! ## Claims C7 and C10: classification contract and enumeration order -/

/-- Position formula for the nested grid loop: in a concatenation of
equal-length blocks, entry `i * L + j` is entry `j` of block `i`. -/
theorem flatMap_range_getElem (f : ℕ → List Cell) (L : ℕ) (hf : ∀ i, (f i).length = L) :
    ∀ n i j : ℕ, i < n → j < L → ((List.range n).flatMap f)[i * L + j]? = (f i)[j]? := by
  intro n
  induction n with
  | zero => intro i j hi _; exact absurd hi (Nat.not_lt_zero i)
  | succ n ih =>
      intro i j hi hj
      rw [List.range_succ, List.flatMap_append]
      have hlen : ((List.range n).flatMap f).length = n * L := by
        simp [List.length_flatMap, Function.comp_def, hf, List.map_const', List.sum_replicate, smul_eq_mul]
      rcases Nat.lt_or_ge i n with h | h
      · rw [List.getElem?_append_left]
        · exact ih i j h hj
        · rw [hlen]
          have e1 : (i + 1) * L = i * L + L := by ring
          have e2 : (i + 1) * L ≤ n * L := Nat.mul_le_mul_right L h
          omega
      · have hie : i = n := by omega
        subst hie
        rw [List.getElem?_append_right (by rw [hlen]; omega)]
        rw [hlen]
        simp

/-- C10 confirmed: the grid loop of main.py lines 66-70 enumerates cells in
column-major order (cell `(i, j)` sits at position `i * n_rows + j`), the
classification loop of lines 78-86 emits one entry per cell in that same
order, and the counting loop of line 117 zips the grid list with the
statuses, so the order-sensitive pool rollover folds over exactly the
grid-construction sequence. -/
theorem c10_order (K : GeomKernel) (vs : List Point) (xmin ymin : ℤ) (w h nc nr : ℕ) :
    (∀ i j : ℕ, i < nc → j < nr →
        (gridCells xmin ymin w h nc nr)[i * nr + j]? = some (mkCell xmin ymin w h i j)) ∧
    (classify K vs w h (gridCells xmin ymin w h nc nr)).map Prod.fst
        = (gridCells xmin ymin w h nc nr).map (fun c => (c.i, c.j)) ∧
    ((gridCells xmin ymin w h nc nr).zip
        ((classify K vs w h (gridCells xmin ymin w h nc nr)).map Prod.snd)).map Prod.fst
        = gridCells xmin ymin w h nc nr := by
  refine ⟨?_, ?_, ?_⟩
  · intro i j hi hj
    unfold gridCells
    rw [flatMap_range_getElem _ nr (fun i => by simp) nc i j hi hj]
    simp [List.getElem?_map, List.getElem?_range hj]
  · simp [classify]
  · apply List.map_fst_zip
    simp [classify]

/-- C7 confirmed: classification yields one entry per input cell in the same
order, and each status comes from checking `covers` before `intersects`
(main.py lines 80-85): a covered cell is fully inside no matter what
`intersects` says, an uncovered intersecting cell is partially inside, and
an uncovered non-intersecting cell is outside. -/
theorem c7_classification (K : GeomKernel) (vs : List Point) (w h : ℕ) (cells : List Cell) :
    (classify K vs w h cells).length = cells.length ∧
    (classify K vs w h cells).map Prod.fst = cells.map (fun c => (c.i, c.j)) ∧
    (∀ c : Cell, K.covers vs (cellBox c w h) = true →
        classifyCell K vs w h c = .fullyInside) ∧
    (∀ c : Cell, K.covers vs (cellBox c w h) = false →
        K.intersects vs (cellBox c w h) = true →
        classifyCell K vs w h c = .partiallyInside) ∧
    (∀ c : Cell, K.covers vs (cellBox c w h) = false →
        K.intersects vs (cellBox c w h) = false →
        classifyCell K vs w h c = .outside) := by
  refine ⟨by simp [classify], by simp [classify], ?_, ?_, ?_⟩
  · intro c hcov
    simp [classifyCell, hcov]
  · intro c hcov hint
    simp [classifyCell, hcov, hint]
  · intro c hcov hint
    simp [classifyCell, hcov, hint]

/-- Witness for `c7_classification`: the unit square covers its own cell, so
the cell classifies as fully inside. -/
theorem c7_classification_witness :
    classifyCell rectKernel [(0, 0), (1, 0), (1, 1), (0, 1)] 1 1 ⟨0, 0, 0, 0⟩
      = .fullyInside :=
  (c7_classification rectKernel [(0, 0), (1, 0), (1, 1), (0, 1)] 1 1 []).2.2.1
    ⟨0, 0, 0, 0⟩ (by norm_num [rectKernel, asAxisRect, cellBox, rectCovers])

/-- Witness for `c10_order`: in a 2 x 3 grid, cell (1, 2) sits at position 5. -/
theorem c10_order_witness :
    (gridCells 0 0 1 1 2 3)[1 * 3 + 2]? = some (mkCell 0 0 1 1 1 2) :=
  (c10_order rectKernel [] 0 0 1 1 2 3).1 1 2 (by norm_num) (by norm_num)
